import Mathlib

/-!
# Verification of the claude-code-usage core pipeline

A shallow embedding, in Lean 4, of the core data pipeline of the
`claude-code-usage` CLI tool: cost calculation and fuzzy pricing lookup
(`lib/pricing.js`), the usage-record parser (`lib/usage.js`), the
time/project filters (`lib/filters.js`), the aggregator
(`lib/aggregator.js`), and the sorter (`lib/sorter.js`).

Modelling conventions:
* JS numbers appearing as token counts are modelled as `Nat`; monetary
  amounts and per-token rates as `Rat` (the reference data holds small
  decimal fractions; no float rounding is modelled).
* JS `undefined` / `null` / absent object fields are modelled as `Option`.
* JS truthiness is modelled explicitly where the source branches on it:
  an absent value and the empty string are falsy; a number is falsy
  exactly when it is `0`.
* Instants (JS `Date`) are modelled as `Int` milliseconds since the Unix
  epoch, in a fixed-offset (UTC) local time; calendar arithmetic uses the
  standard civil-from-days / days-from-civil algorithms, which agree with
  the ECMAScript `Date` normalization rules for a fixed-offset zone.
* `Map` objects (which iterate in insertion order) are modelled as
  association lists `List (String × _)`; `Map.get` is `List.lookup`.
-/

namespace ClaudeCodeUsage

/-! ## JS truthiness helpers -/

/-- JS truthiness of an optional string: `undefined`, `null` and `""` are
falsy; every other string is truthy. -/
def strTruthy : Option String → Bool
  | none => false
  | some s => s ≠ ""

/-- JS `a || b` on an optional number (`undefined`/`0` fall through to `b`). -/
def jsOrNat (a : Option Nat) (b : Nat) : Nat :=
  match a with
  | none => b
  | some n => if n = 0 then b else n

/-- JS `x || null` on an optional string (used for `message.role || null`
and `message.model || null`): the empty string collapses to `null`. -/
def jsStrOrNull (a : Option String) : Option String :=
  match a with
  | none => none
  | some s => if s = "" then none else some s

/-- JS `hay.includes(needle)`: substring containment (contiguous). -/
def jsIncludes (hay needle : String) : Bool :=
  decide (needle.toList <:+: hay.toList)

/-- JS `s.toLowerCase()`, modelled character-wise (ASCII case folding,
which covers every string the tool compares). -/
def jsToLower (s : String) : String :=
  String.mk (s.data.map Char.toLower)

/-- Split a character list at every occurrence of `sep` (like JS
`String.split` on a one-character separator, keeping empty parts). -/
def splitOnChar (sep : Char) : List Char → List (List Char)
  | [] => [[]]
  | c :: rest =>
      let r := splitOnChar sep rest
      if c = sep then [] :: r
      else
        match r with
        | [] => [[c]]
        | h :: t => (c :: h) :: t

/-! ## Pricing (`lib/pricing.js`) -/

/-- A pricing entry, as produced by `fetchModelPricing` (fields are always
present there, defaulted with `|| 0`) or as found in a raw table; absent
fields are `none`. Mirrors the LiteLLM schema. -/
structure Pricing where
  input_cost_per_token : Option Rat
  output_cost_per_token : Option Rat
  cache_creation_input_token_cost : Option Rat
  cache_read_input_token_cost : Option Rat
deriving Repr, DecidableEq

/-- The token-usage tuple passed to `calculateCost` (built in
`lib/usage.js` with all four fields present, defaulted to 0). -/
structure Tokens where
  inputTokens : Nat
  outputTokens : Nat
  cacheWriteTokens : Nat
  cacheReadTokens : Nat
deriving Repr, DecidableEq

/-- One guarded term of `calculateCost`: the source only adds
`tok * price` under `if (tok && price)`, i.e. when both are truthy
(non-zero and present). -/
def costTerm (tok : Nat) (price : Option Rat) : Rat :=
  match price with
  | none => 0
  | some p => if tok ≠ 0 ∧ p ≠ 0 then (tok : Rat) * p else 0

/-- `calculateCost(tokens, pricing)` from `lib/pricing.js`: returns 0 for
an absent pricing entry, else the sum of the four guarded terms. -/
def calculateCost (tokens : Tokens) (pricing : Option Pricing) : Rat :=
  match pricing with
  | none => 0
  | some p =>
      costTerm tokens.inputTokens p.input_cost_per_token
        + costTerm tokens.outputTokens p.output_cost_per_token
        + costTerm tokens.cacheWriteTokens p.cache_creation_input_token_cost
        + costTerm tokens.cacheReadTokens p.cache_read_input_token_cost

/-- A pricing table: a JS `Map` from model name to pricing entry,
modelled as an insertion-ordered association list. -/
abbrev PricingTable := List (String × Pricing)

/-- The loop `for (const variant of variations) { ... pricingData.get(variant) }`
in `getModelPricing`. -/
def tryVariations : List String → PricingTable → Option Pricing
  | [], _ => none
  | v :: rest, table =>
      match table.lookup v with
      | some p => some p
      | none => tryVariations rest table

/-- The final partial-matching loop of `getModelPricing`: walk the table in
iteration order and return the first value whose lowercased key contains, or
is contained in, the lowercased model name. -/
def substringScan (lowerModelName : String) : PricingTable → Option Pricing
  | [] => none
  | (k, v) :: rest =>
      if jsIncludes (jsToLower k) lowerModelName || jsIncludes lowerModelName (jsToLower k) then
        some v
      else substringScan lowerModelName rest

/-- `getModelPricing(modelName, pricingData)` from `lib/pricing.js`:
guard on truthiness of both arguments, then exact match, then the fixed
variation list, then the case-insensitive substring scan. -/
def getModelPricing (modelName : Option String) (pricingData : Option PricingTable) :
    Option Pricing :=
  match modelName, pricingData with
  | none, _ => none
  | some _, none => none
  | some m, some table =>
      if m = "" then none
      else
        match table.lookup m with
        | some p => some p
        | none =>
            match tryVariations
                [m, "anthropic/" ++ m, "claude-3-5-" ++ m, "claude-3-" ++ m,
                  "claude-" ++ m] table with
            | some p => some p
            | none => substringScan (jsToLower m) table

/-! Spec-side pricing resolution, stated in the words of the specification
(§4.2): three layered steps, first hit wins. Used to compare against the
source-derived `getModelPricing`. -/

/-- Spec step 1: exact key match. -/
def resolveExact (m : String) (table : PricingTable) : Option Pricing :=
  table.lookup m

/-- Spec step 2: the fixed list of name-variant rewrites, tried in a fixed
priority order (vendor namespace prefix, then version-family prefixes). -/
def resolveVariants (m : String) (table : PricingTable) : Option Pricing :=
  tryVariations
    ["anthropic/" ++ m, "claude-3-5-" ++ m, "claude-3-" ++ m, "claude-" ++ m] table

/-- Spec step 3: case-insensitive substring match in either direction,
first match in table iteration order winning, phrased with `List.find?`. -/
def resolveSubstring (m : String) (table : PricingTable) : Option Pricing :=
  (table.find? fun kv =>
      jsIncludes (jsToLower kv.1) (jsToLower m) || jsIncludes (jsToLower m) (jsToLower kv.1)).map
    Prod.snd

/-- Spec-worded resolution: exact, else variants, else substring, else absent. -/
def resolveSpec (m : String) (table : PricingTable) : Option Pricing :=
  match resolveExact m table with
  | some p => some p
  | none =>
      match resolveVariants m table with
      | some p => some p
      | none => resolveSubstring m table

/-! ## Usage records (`lib/usage.js`) -/

/-- The nested `usage` sub-object of a message, with both historical
field-name variants for the cache counters. -/
structure UsageObj where
  input_tokens : Option Nat
  output_tokens : Option Nat
  cache_write_tokens : Option Nat
  cache_creation_input_tokens : Option Nat
  cache_read_tokens : Option Nat
  cache_read_input_tokens : Option Nat
deriving Repr, DecidableEq

/-- The `message` sub-object of a parsed log line. -/
structure MessageObj where
  usage : Option UsageObj
  model : Option String
  role : Option String
deriving Repr, DecidableEq

/-- The fields of one successfully JSON-parsed log line that `getUsage`
reads. `timestamp` models the source's ISO timestamp string as the
instant it denotes (milliseconds); presence models truthiness, since the
timestamp strings are non-empty when present. -/
structure LineData where
  cwd : Option String
  timestamp : Option Int
  message : Option MessageObj
deriving Repr, DecidableEq

/-- A scanned log line: `none` models a line on which `JSON.parse` throws
(such lines are silently skipped), `some` a structured record. -/
abbrev ScanLine := Option LineData

/-- One emitted usage record (`messageDetails` in `getUsage`). -/
structure Msg where
  timestamp : Option Int
  project : Option String
  role : Option String
  inputTokens : Nat
  outputTokens : Nat
  cacheWriteTokens : Nat
  cacheReadTokens : Nat
  model : Option String
  cost : Rat
deriving Repr, DecidableEq

/-- `cwd.split('/')` last element: the last path segment (possibly empty
when the path ends in a slash). -/
def lastSegment (cwd : String) : String :=
  String.mk ((splitOnChar '/' cwd.data).getLastD [])

/-- The `if (!projectName)` block of `getUsage`: on every successfully
parsed line, while the running project name is still falsy, set it from
the line's truthy `cwd` (last path segment) or else from the containing
directory's name. -/
def resolveProjectName (dir : String) (pn : Option String) (d : LineData) : Option String :=
  if strTruthy pn then pn
  else
    match d.cwd with
    | some c => if c = "" then some dir else some (lastSegment c)
    | none => some dir

/-- Build one `messageDetails` record from a usage-bearing line, exactly
as `getUsage` does: token fields with the `||` alias/default chains, cost
from `getModelPricing` + `calculateCost`. -/
def mkMsg (pricingData : Option PricingTable) (pn : Option String) (d : LineData)
    (m : MessageObj) (u : UsageObj) : Msg :=
  let inputTokens := jsOrNat u.input_tokens 0
  let outputTokens := jsOrNat u.output_tokens 0
  let cacheWriteTokens := jsOrNat u.cache_write_tokens (jsOrNat u.cache_creation_input_tokens 0)
  let cacheReadTokens := jsOrNat u.cache_read_tokens (jsOrNat u.cache_read_input_tokens 0)
  let modelPricing := getModelPricing m.model pricingData
  let cost := calculateCost ⟨inputTokens, outputTokens, cacheWriteTokens, cacheReadTokens⟩
    modelPricing
  { timestamp := d.timestamp
    project := pn
    role := jsStrOrNull m.role
    inputTokens := inputTokens
    outputTokens := outputTokens
    cacheWriteTokens := cacheWriteTokens
    cacheReadTokens := cacheReadTokens
    model := jsStrOrNull m.model
    cost := cost }

/-- One iteration of the per-line loop of `getUsage`: skip unparseable
lines; otherwise update the (per-directory) project name, then emit a
record exactly when the line has a `message` with a `usage` sub-object. -/
def lineStep (dir : String) (pricingData : Option PricingTable)
    (st : Option String × List Msg) (line : ScanLine) : Option String × List Msg :=
  match line with
  | none => st
  | some d =>
      let pn := resolveProjectName dir st.1 d
      match d.message with
      | some m =>
          match m.usage with
          | some u => (pn, st.2 ++ [mkMsg pricingData pn d m u])
          | none => (pn, st.2)
      | none => (pn, st.2)

/-- The lines of one `.jsonl` file, folded with the running project name. -/
def processFile (dir : String) (pricingData : Option PricingTable)
    (st : Option String × List Msg) (lines : List ScanLine) : Option String × List Msg :=
  lines.foldl (lineStep dir pricingData) st

/-- One project directory of `getUsage`: `let projectName = null` then the
loop over the directory's `.jsonl` files (each given as its parsed line
list), accumulating records. -/
def processDir (pricingData : Option PricingTable) (dir : String)
    (files : List (List ScanLine)) : List Msg :=
  (files.foldl (processFile dir pricingData) (none, [])).2

/-- Does a scanned line contribute a usage record? Exactly the source's
`data.message && data.message.usage` test on a successfully parsed line. -/
def lineHasUsage : ScanLine → Bool
  | none => false
  | some d =>
      match d.message with
      | some m => m.usage.isSome
      | none => false

/-! ## Calendar model (fixed-offset ECMAScript `Date`) -/

def msPerSecond : Int := 1000
def msPerMinute : Int := 60000
def msPerHour : Int := 3600000
def msPerDay : Int := 86400000

/-- Days since the Unix epoch of a civil date (proleptic Gregorian),
Howard Hinnant's `days_from_civil` algorithm, matching ECMAScript `Date`
day numbering. Expects `1 ≤ m ≤ 12`. -/
def daysFromCivil (y m d : Int) : Int :=
  let y2 := if m ≤ 2 then y - 1 else y
  let era := y2.fdiv 400
  let yoe := y2 - era * 400
  let mp := if 2 < m then m - 3 else m + 9
  let doy := (153 * mp + 2).fdiv 5 + d - 1
  let doe := yoe * 365 + yoe.fdiv 4 - yoe.fdiv 100 + doy
  era * 146097 + doe - 719468

/-- Civil date `(year, month, day)` of a day count since the Unix epoch
(Hinnant's `civil_from_days`). -/
def civilFromDays (z : Int) : Int × Int × Int :=
  let z2 := z + 719468
  let era := z2.fdiv 146097
  let doe := z2 - era * 146097
  let yoe := (doe - doe.fdiv 1460 + doe.fdiv 36524 - doe.fdiv 146096).fdiv 365
  let y := yoe + era * 400
  let doy := doe - (365 * yoe + yoe.fdiv 4 - yoe.fdiv 100)
  let mp := (5 * doy + 2).fdiv 153
  let d := doy - (153 * mp + 2).fdiv 5 + 1
  let m := if mp < 10 then mp + 3 else mp - 9
  (if m ≤ 2 then y + 1 else y, m, d)

/-- `date.getFullYear()` in the fixed-offset model. -/
def getFullYear (t : Int) : Int :=
  (civilFromDays (t.fdiv msPerDay)).1

/-- Midnight instant of `new Date(y, monthIndex, day)` **without** the
two-digit-year rule: used to model the `setMonth`/`setFullYear` updates
and as the normalization core of the constructor. Out-of-range
`monthIndex` and `day` are normalized exactly as ECMAScript does. -/
def calMs (y monthIndex day : Int) : Int :=
  let total := y * 12 + monthIndex
  let yy := total.fdiv 12
  let mm := total - yy * 12
  (daysFromCivil yy (mm + 1) 1 + (day - 1)) * msPerDay

/-- The ECMAScript two-argument-plus `Date` constructor rule: a year in
`[0, 99]` means `1900 + year`. -/
def adjustTwoDigitYear (y : Int) : Int :=
  if 0 ≤ y ∧ y ≤ 99 then 1900 + y else y

/-- `new Date(y, monthIndex, day).getTime()` at local midnight in the
fixed-offset model. -/
def jsDateMs (y monthIndex day : Int) : Int :=
  calMs (adjustTwoDigitYear y) monthIndex day

/-- `startDate.setMonth(startDate.getMonth() - n)` applied to instant `t`:
keep the day-of-month and time-of-day, move the month index back by `n`,
with ECMAScript normalization. -/
def setMonthsBack (t : Int) (n : Nat) : Int :=
  let days := t.fdiv msPerDay
  let msOfDay := t.emod msPerDay
  let ymd := civilFromDays days
  calMs ymd.1 (ymd.2.1 - 1 - n) ymd.2.2 + msOfDay

/-- `startDate.setFullYear(startDate.getFullYear() - n)` applied to `t`. -/
def setYearsBack (t : Int) (n : Nat) : Int :=
  let days := t.fdiv msPerDay
  let msOfDay := t.emod msPerDay
  let ymd := civilFromDays days
  calMs (ymd.1 - n) (ymd.2.1 - 1) ymd.2.2 + msOfDay

/-- Gregorian leap-year predicate. -/
def isLeapYear (y : Int) : Bool :=
  (y % 4 = 0 ∧ y % 100 ≠ 0) ∨ y % 400 = 0

/-- Number of days of month `m` (1-based) of year `y`. -/
def daysInMonth (y m : Int) : Int :=
  if m = 1 ∨ m = 3 ∨ m = 5 ∨ m = 7 ∨ m = 8 ∨ m = 10 ∨ m = 12 then 31
  else if m = 4 ∨ m = 6 ∨ m = 9 ∨ m = 11 then 30
  else if isLeapYear y then 29 else 28

/-- `new Date("YYYY-MM-DDThh:mm:ss").getTime()` in the fixed-offset
model: `none` models an Invalid Date (out-of-range components make the
ISO string invalid per the ECMAScript date-time string format). -/
def isoDateTimeMs (y m d h mi s : Nat) : Option Int :=
  if 1 ≤ m ∧ m ≤ 12 ∧ 1 ≤ d ∧ (d : Int) ≤ daysInMonth y m ∧
      ((h ≤ 23 ∧ mi ≤ 59 ∧ s ≤ 59) ∨ (h = 24 ∧ mi = 0 ∧ s = 0)) then
    some (daysFromCivil y m d * msPerDay + h * msPerHour + mi * msPerMinute + s * msPerSecond)
  else none

/-! ## Time filter (`lib/filters.js`) -/

/-- A parsed time range (`{start, end}` in the source; `end` is a Lean
keyword, renamed `stop`). `none` components model Invalid Dates (NaN). -/
structure TimeRange where
  start : Option Int
  stop : Option Int
deriving Repr, DecidableEq

/-- Fold a digit string to its numeric value (`parseInt` on a digit-only
match group). -/
def digitsToNat (l : List Char) : Nat :=
  l.foldl (fun acc c => acc * 10 + (c.toNat - '0'.toNat)) 0

/-- Regex `^\d+<sfx>$` (for a non-digit-initial literal suffix `sfx`):
returns `parseInt` of the leading digit group on a match. Models the five
relative-duration patterns of `parseTimeFilter`. -/
def matchNumSuffix (l : List Char) (sfx : List Char) : Option Nat :=
  let digits := l.takeWhile Char.isDigit
  let rest := l.dropWhile Char.isDigit
  if digits ≠ [] ∧ rest = sfx then some (digitsToNat digits) else none

/-- Regex `^\d{1,2}-\d{1,2}$`, returning the two parsed numbers. -/
def matchMonthRangeNum (l : List Char) : Option (Nat × Nat) :=
  match splitOnChar '-' l with
  | [a, b] =>
      if a ≠ [] ∧ a.length ≤ 2 ∧ a.all Char.isDigit
          ∧ b ≠ [] ∧ b.length ≤ 2 ∧ b.all Char.isDigit then
        some (digitsToNat a, digitsToNat b)
      else none
  | _ => none

/-- ASCII `[a-z]`. -/
def isAsciiLowerAlpha (c : Char) : Bool := 'a' ≤ c ∧ c ≤ 'z'

/-- Regex `^([a-z]+)-([a-z]+)$`, returning the two letter groups. -/
def matchLettersRange (l : List Char) : Option (List Char × List Char) :=
  match splitOnChar '-' l with
  | [a, b] =>
      if a ≠ [] ∧ a.all isAsciiLowerAlpha ∧ b ≠ [] ∧ b.all isAsciiLowerAlpha then
        some (a, b)
      else none
  | _ => none

/-- The `monthNames` table of `parseTimeFilter`. -/
def monthNames : List (String × Nat) :=
  [("jan", 1), ("january", 1), ("feb", 2), ("february", 2), ("mar", 3), ("march", 3),
   ("apr", 4), ("april", 4), ("may", 5), ("jun", 6), ("june", 6), ("jul", 7), ("july", 7),
   ("aug", 8), ("august", 8), ("sep", 9), ("september", 9), ("oct", 10), ("october", 10),
   ("nov", 11), ("november", 11), ("dec", 12), ("december", 12)]

/-- The named-month-range pattern: both letter groups must be valid month
names (`monthNames[a] && monthNames[b]`, all month numbers being truthy);
otherwise control falls through to the later patterns. -/
def matchNamedMonthRange (l : List Char) : Option (Nat × Nat) :=
  match matchLettersRange l with
  | none => none
  | some (a, b) =>
      match monthNames.lookup (String.mk a), monthNames.lookup (String.mk b) with
      | some sm, some em => some (sm, em)
      | _, _ => none

/-- Regex `^(\d{4})-(\d{1,2})-(\d{4})-(\d{1,2})$`. -/
def matchYearMonthRange (l : List Char) : Option (Nat × Nat × Nat × Nat) :=
  match splitOnChar '-' l with
  | [a, b, c, d] =>
      if a.length = 4 ∧ a.all Char.isDigit ∧ b ≠ [] ∧ b.length ≤ 2 ∧ b.all Char.isDigit
          ∧ c.length = 4 ∧ c.all Char.isDigit
          ∧ d ≠ [] ∧ d.length ≤ 2 ∧ d.all Char.isDigit then
        some (digitsToNat a, digitsToNat b, digitsToNat c, digitsToNat d)
      else none
  | _ => none

/-- Regex `\d{4}-\d{2}-\d{2}` (one side of the date-range pattern). -/
def matchDatePart (l : List Char) : Option (Nat × Nat × Nat) :=
  match splitOnChar '-' l with
  | [y, m, d] =>
      if y.length = 4 ∧ y.all Char.isDigit ∧ m.length = 2 ∧ m.all Char.isDigit
          ∧ d.length = 2 ∧ d.all Char.isDigit then
        some (digitsToNat y, digitsToNat m, digitsToNat d)
      else none
  | _ => none

/-- Regex `^(\d{4}-\d{2}-\d{2}),(\d{4}-\d{2}-\d{2})$`. -/
def matchDateRange (l : List Char) : Option ((Nat × Nat × Nat) × (Nat × Nat × Nat)) :=
  match splitOnChar ',' l with
  | [a, b] =>
      match matchDatePart a, matchDatePart b with
      | some p1, some p2 => some (p1, p2)
      | _, _ => none
  | _ => none

/-- `n` groups of exactly two digits separated by `:` (the time part of
the date-time patterns). -/
def matchTimeCols (l : List Char) (n : Nat) : Option (List Nat) :=
  let parts := splitOnChar ':' l
  if parts.length = n ∧ parts.all (fun p => p.length = 2 ∧ p.all Char.isDigit) then
    some (parts.map digitsToNat)
  else none

/-- One side of a date-time pattern: `\d{4}-\d{2}-\d{2}[t\s]` then `n`
two-digit colon-separated time groups (the filter string is already
lowercased, so the literal separator is `t`). -/
def matchDateTimeSide (l : List Char) (n : Nat) : Option ((Nat × Nat × Nat) × List Nat) :=
  match l.drop 10 with
  | [] => none
  | s :: timePart =>
      if s = 't' ∨ s.isWhitespace then
        match matchDatePart (l.take 10), matchTimeCols timePart n with
        | some d, some ts => some (d, ts)
        | _, _ => none
      else none

/-- A full date-time range pattern with `n` time groups per side. -/
def matchDateTimeRange (l : List Char) (n : Nat) :
    Option (((Nat × Nat × Nat) × List Nat) × ((Nat × Nat × Nat) × List Nat)) :=
  match splitOnChar ',' l with
  | [a, b] =>
      match matchDateTimeSide a n, matchDateTimeSide b n with
      | some p1, some p2 => some (p1, p2)
      | _, _ => none
  | _ => none

/-- Instant of one matched date-time side, padding the missing minute and
second fields as the source does when it appends `:00` / `:59` etc. -/
def sideToMs (side : (Nat × Nat × Nat) × List Nat) (padMin padSec : Nat) : Option Int :=
  match side with
  | ((y, m, d), [h]) => isoDateTimeMs y m d h padMin padSec
  | ((y, m, d), [h, mi]) => isoDateTimeMs y m d h mi padSec
  | ((y, m, d), [h, mi, s]) => isoDateTimeMs y m d h mi s
  | _ => none

/-- The error message of the final `throw` of `parseTimeFilter`. -/
def invalidTimeFilterMsg (timeFilter : String) : String :=
  "Invalid time filter format: " ++ timeFilter
    ++ ". \nExamples: 5min, 2h, 7d, 1m, 1y, 2024-07-01 14:30:15,2024-07-01 16:45:30"

/-- `parseTimeFilter(timeFilter)` from `lib/filters.js`, with the ambient
`new Date()` made explicit as `now`. Returns `.ok none` for a falsy
input, `.ok (some range)` on a pattern match (patterns tried in source
order), and `.error` (the source's `throw`) when nothing matches. -/
def parseTimeFilter (now : Int) (timeFilter : String) : Except String (Option TimeRange) :=
  if timeFilter = "" then .ok none
  else
    let currentYear := getFullYear now
    let fl := (jsToLower timeFilter).toList
    let fns := fl.filter (fun c => !c.isWhitespace)
    match matchNumSuffix fns ['m', 'i', 'n'] with
    | some n => .ok (some ⟨some (now - n * msPerMinute), some now⟩)
    | none =>
    match matchNumSuffix fns ['h'] with
    | some n => .ok (some ⟨some (now - n * msPerHour), some now⟩)
    | none =>
    match matchNumSuffix fns ['d'] with
    | some n => .ok (some ⟨some (now - n * msPerDay), some now⟩)
    | none =>
    match matchNumSuffix fns ['m'] with
    | some n => .ok (some ⟨some (setMonthsBack now n), some now⟩)
    | none =>
    match matchNumSuffix fns ['y'] with
    | some n => .ok (some ⟨some (setYearsBack now n), some now⟩)
    | none =>
    match matchMonthRangeNum fns with
    | some (sm, em) =>
        .ok (some ⟨some (jsDateMs currentYear ((sm : Int) - 1) 1),
          some (jsDateMs currentYear em 0)⟩)
    | none =>
    match matchNamedMonthRange fl with
    | some (sm, em) =>
        .ok (some ⟨some (jsDateMs currentYear ((sm : Int) - 1) 1),
          some (jsDateMs currentYear em 0)⟩)
    | none =>
    match matchYearMonthRange fl with
    | some (sy, sm, ey, em) =>
        .ok (some ⟨some (jsDateMs sy ((sm : Int) - 1) 1), some (jsDateMs ey em 0)⟩)
    | none =>
    match matchDateRange fl with
    | some ((y1, m1, d1), (y2, m2, d2)) =>
        .ok (some ⟨isoDateTimeMs y1 m1 d1 0 0 0, isoDateTimeMs y2 m2 d2 23 59 59⟩)
    | none =>
    match matchDateTimeRange fl 3 with
    | some (p1, p2) => .ok (some ⟨sideToMs p1 0 0, sideToMs p2 0 0⟩)
    | none =>
    match matchDateTimeRange fl 2 with
    | some (p1, p2) => .ok (some ⟨sideToMs p1 0 0, sideToMs p2 0 59⟩)
    | none =>
    match matchDateTimeRange fl 1 with
    | some (p1, p2) => .ok (some ⟨sideToMs p1 0 0, sideToMs p2 59 59⟩)
    | none => .error (invalidTimeFilterMsg timeFilter)

/-- Does any supported pattern of `parseTimeFilter` match this (non-empty)
filter string? Collects exactly the guards of the source's branch chain. -/
def timePatternMatches (timeFilter : String) : Bool :=
  let fl := (jsToLower timeFilter).toList
  let fns := fl.filter (fun c => !c.isWhitespace)
  (matchNumSuffix fns ['m', 'i', 'n']).isSome
    || (matchNumSuffix fns ['h']).isSome
    || (matchNumSuffix fns ['d']).isSome
    || (matchNumSuffix fns ['m']).isSome
    || (matchNumSuffix fns ['y']).isSome
    || (matchMonthRangeNum fns).isSome
    || (matchNamedMonthRange fl).isSome
    || (matchYearMonthRange fl).isSome
    || (matchDateRange fl).isSome
    || (matchDateTimeRange fl 3).isSome
    || (matchDateTimeRange fl 2).isSome
    || (matchDateTimeRange fl 1).isSome

/-- The record-retention test of `filterByTime`: a record with no
timestamp is never in range, and each boundary comparison with an Invalid
Date (NaN) is false. -/
def inTimeRange (tr : TimeRange) (ts : Option Int) : Bool :=
  match ts with
  | none => false
  | some t =>
      (match tr.start with | none => false | some a => a ≤ t)
        && (match tr.stop with | none => false | some b => t ≤ b)

/-- `filterByTime(messages, timeFilter)` from `lib/filters.js` (the
source's `throw` from `parseTimeFilter` propagates as `.error`). -/
def filterByTime (now : Int) (messages : List Msg) (timeFilter : String) :
    Except String (List Msg) :=
  if timeFilter = "" then .ok messages
  else
    match parseTimeFilter now timeFilter with
    | .error e => .error e
    | .ok none => .ok messages
    | .ok (some tr) => .ok (messages.filter fun msg => inTimeRange tr msg.timestamp)

/-- `filterByProject(messages, projectFilter)`: case-insensitive substring
match against each record's project (absent project reads as `''`). -/
def filterByProject (messages : List Msg) (projectFilter : String) : List Msg :=
  if projectFilter = "" then messages
  else
    messages.filter fun msg =>
      jsIncludes (jsToLower (msg.project.getD "")) (jsToLower projectFilter)

/-! ## Aggregator (`lib/aggregator.js`) -/

/-- The per-group accumulator entry of `aggregateMessagesByProjectAndDate`
(the `models` JS `Set` is modelled as an insertion-ordered
duplicate-free list). -/
structure Agg where
  timestamp : Option Int
  project : Option String
  role : Option String
  inputTokens : Nat
  outputTokens : Nat
  cacheWriteTokens : Nat
  cacheReadTokens : Nat
  model : Option String
  cost : Rat
  messageCount : Nat
  models : List String
deriving Repr, DecidableEq

/-- An output row after the final model-label rewrite (`delete
entry.models` removes the set). -/
structure AggRow where
  timestamp : Option Int
  project : Option String
  role : Option String
  inputTokens : Nat
  outputTokens : Nat
  cacheWriteTokens : Nat
  cacheReadTokens : Nat
  model : Option String
  cost : Rat
  messageCount : Nat
deriving Repr, DecidableEq

/-- Zero-pad to two digits (a `toISOString` date component). -/
def pad2 (n : Int) : String :=
  if n < 10 then "0" ++ toString n else toString n

/-- Zero-pad to four digits (the `toISOString` year). -/
def pad4 (n : Int) : String :=
  if n < 10 then "000" ++ toString n
  else if n < 100 then "00" ++ toString n
  else if n < 1000 then "0" ++ toString n
  else toString n

/-- `new Date(t).toISOString().split('T')[0]`: the UTC calendar date of
the instant, as "YYYY-MM-DD". -/
def isoDateStr (t : Int) : String :=
  let ymd := civilFromDays (t.fdiv msPerDay)
  pad4 ymd.1 ++ "-" ++ pad2 ymd.2.1 ++ "-" ++ pad2 ymd.2.2

/-- The group key: `(msg.project || '') + "||" + dateStr`, where records
lacking a timestamp group under the sentinel date "unknown". -/
def aggKey (msg : Msg) : String :=
  (msg.project.getD "") ++ "||"
    ++ (match msg.timestamp with
        | some t => isoDateStr t
        | none => "unknown")

/-- A fresh accumulator entry for a message's group (the source's
zero-initialized object; its `model` field is overwritten by the final
rewrite in every case). -/
def initAgg (msg : Msg) : Agg :=
  { timestamp := msg.timestamp
    project := msg.project
    role := msg.role
    inputTokens := 0
    outputTokens := 0
    cacheWriteTokens := 0
    cacheReadTokens := 0
    model := msg.model
    cost := 0
    messageCount := 0
    models := [] }

/-- JS `new Date(x).getTime()` where a null timestamp coerces to epoch 0. -/
def tsValue (x : Option Int) : Int := x.getD 0

/-- The accumulation body of the per-message loop: add the token counts
and cost (the source's `|| 0` defaults are identities on `Nat`/`Rat`
zeros), bump the count, add a truthy model to the set, and advance the
representative timestamp when the message's is strictly later. -/
def accumulate (msg : Msg) (a : Agg) : Agg :=
  let a1 := { a with
    inputTokens := a.inputTokens + msg.inputTokens
    outputTokens := a.outputTokens + msg.outputTokens
    cacheWriteTokens := a.cacheWriteTokens + msg.cacheWriteTokens
    cacheReadTokens := a.cacheReadTokens + msg.cacheReadTokens
    cost := a.cost + msg.cost
    messageCount := a.messageCount + 1 }
  let a2 :=
    match msg.model with
    | some m =>
        if m ≠ "" ∧ m ∉ a1.models then { a1 with models := a1.models ++ [m] } else a1
    | none => a1
  match msg.timestamp with
  | some t => if tsValue a2.timestamp < t then { a2 with timestamp := some t } else a2
  | none => a2

/-- In-place update of the (unique) map entry with the given key. -/
def updateEntry (key : String) (f : Agg → Agg) : List (String × Agg) → List (String × Agg)
  | [] => []
  | (k, v) :: rest =>
      if k = key then (k, f v) :: rest
      else (k, v) :: updateEntry key f rest

/-- One iteration of the `messages.forEach` loop over the
insertion-ordered aggregation map: create the zero entry on first sight
of a key (appended at the end, as `Map.set` does), then accumulate. -/
def aggStep (acc : List (String × Agg)) (msg : Msg) : List (String × Agg) :=
  let key := aggKey msg
  let acc1 := if (acc.lookup key).isSome then acc else acc ++ [(key, initAgg msg)]
  updateEntry key (accumulate msg) acc1

/-- The final model-label rewrite: a multi-model group shows "N models",
a single-model group the name, an empty set the empty string. -/
def finalizeAgg (e : Agg) : AggRow :=
  { timestamp := e.timestamp
    project := e.project
    role := e.role
    inputTokens := e.inputTokens
    outputTokens := e.outputTokens
    cacheWriteTokens := e.cacheWriteTokens
    cacheReadTokens := e.cacheReadTokens
    model :=
      if 1 < e.models.length then some (toString e.models.length ++ " models")
      else
        match e.models with
        | [m] => some m
        | _ => some ""
    cost := e.cost
    messageCount := e.messageCount }

/-- `aggregateMessagesByProjectAndDate(messages)` from `lib/aggregator.js`. -/
def aggregateMessagesByProjectAndDate (messages : List Msg) : List AggRow :=
  (messages.foldl aggStep []).map fun kv => finalizeAgg kv.2

/-! ## Sorter (`lib/sorter.js`) -/

/-- `VALID_FIELDS` from `lib/sorter.js`. -/
def VALID_FIELDS : List String := ["cost", "time", "tokens", "project"]

/-- `VALID_ORDERS` from `lib/sorter.js`. -/
def VALID_ORDERS : List String := ["asc", "desc"]

/-- A sort key: the JS comparator sees either a number or a string. -/
inductive SortValue where
  | num : Rat → SortValue
  | str : String → SortValue
deriving Repr, DecidableEq

/-- `getSortValue(message, sortField)`. For "time",
`new Date(msg.timestamp || 0).getTime()` coerces an absent timestamp to
epoch 0; for "project" the name is lowercased; the `default` arm yields
0 (unreachable after validation). -/
def getSortValue (message : Msg) (sortField : String) : SortValue :=
  if sortField = "cost" then .num message.cost
  else if sortField = "time" then .num ((tsValue message.timestamp : Int) : Rat)
  else if sortField = "tokens" then
    .num ((message.inputTokens + message.outputTokens
      + message.cacheWriteTokens + message.cacheReadTokens : Nat) : Rat)
  else if sortField = "project" then .str (jsToLower (message.project.getD ""))
  else .num 0

/-- `String.localeCompare`, modelled as code-point lexicographic
comparison (the default locale agrees with it on the ASCII names the
tool compares). -/
def strCompare (a b : String) : Rat :=
  if a < b then -1 else if a = b then 0 else 1

/-- `compareValues(valueA, valueB, sortOrder)`: string pairs use
`localeCompare`, numeric pairs subtraction; "asc" keeps the sign, any
other order (here only "desc" after validation) negates it. A mixed
pair cannot arise for a fixed field; it is given the value 0. -/
def compareValues (valueA valueB : SortValue) (sortOrder : String) : Rat :=
  match valueA, valueB with
  | .str a, .str b =>
      if sortOrder = "asc" then strCompare a b else -(strCompare a b)
  | .num a, .num b =>
      if sortOrder = "asc" then a - b else b - a
  | _, _ => 0

/-- `sortMessages(messages, sortField, sortOrder)` from `lib/sorter.js`:
validate both arguments (the source's `throw` is `.error`), then sort a
copy (`[...messages].sort`) by the comparator. `Array.prototype.sort` is
modelled by a stable merge sort consistent with the comparator, which is
what ECMAScript specifies (stability since ES2019). -/
def sortMessages (messages : List Msg) (sortField sortOrder : String) :
    Except String (List Msg) :=
  if sortField ∉ VALID_FIELDS then
    .error ("Invalid sort field: " ++ sortField ++ ". Valid options: "
      ++ String.intercalate ", " VALID_FIELDS)
  else if sortOrder ∉ VALID_ORDERS then
    .error ("Invalid sort order: " ++ sortOrder ++ ". Valid options: "
      ++ String.intercalate ", " VALID_ORDERS)
  else
    .ok (messages.mergeSort fun a b =>
      decide (compareValues (getSortValue a sortField) (getSortValue b sortField)
        sortOrder ≤ 0))

/-! ## Pricing theorems -/

/-- Each guarded term of `calculateCost` equals the plain product with an
absent rate read as 0 (the truthiness guards only skip terms whose product
is 0 anyway). -/
theorem costTerm_eq (tok : Nat) (price : Option Rat) :
    costTerm tok price = tok * price.getD 0 := by
  cases price with
  | none => simp [costTerm]
  | some p =>
      simp only [costTerm, Option.getD_some]
      by_cases h1 : tok = 0
      · subst h1; simp
      · by_cases h2 : p = 0
        · simp [h1, h2]
        · simp [h1, h2]

/-- C1: for every token tuple and pricing entry, `calculateCost` returns
exactly the four-term weighted sum, an absent pricing field contributing 0
to its term; an absent pricing entry yields 0; and (for the non-negative
per-token rates the data model prescribes) the result is never negative.
`calculateCost` is a total function on these types, so it never throws,
and over `Rat` no NaN can arise. -/
theorem calculateCost_spec (t : Tokens) (p : Pricing)
    (h1 : 0 ≤ p.input_cost_per_token.getD 0)
    (h2 : 0 ≤ p.output_cost_per_token.getD 0)
    (h3 : 0 ≤ p.cache_creation_input_token_cost.getD 0)
    (h4 : 0 ≤ p.cache_read_input_token_cost.getD 0) :
    calculateCost t (some p)
        = t.inputTokens * p.input_cost_per_token.getD 0
          + t.outputTokens * p.output_cost_per_token.getD 0
          + t.cacheWriteTokens * p.cache_creation_input_token_cost.getD 0
          + t.cacheReadTokens * p.cache_read_input_token_cost.getD 0
      ∧ calculateCost t none = 0
      ∧ 0 ≤ calculateCost t (some p) := by
  have hsum : calculateCost t (some p)
      = t.inputTokens * p.input_cost_per_token.getD 0
        + t.outputTokens * p.output_cost_per_token.getD 0
        + t.cacheWriteTokens * p.cache_creation_input_token_cost.getD 0
        + t.cacheReadTokens * p.cache_read_input_token_cost.getD 0 := by
    simp [calculateCost, costTerm_eq]
  refine ⟨hsum, rfl, ?_⟩
  rw [hsum]
  have hn : ∀ (n : Nat) (q : Rat), 0 ≤ q → 0 ≤ (n : Rat) * q := fun n q hq =>
    mul_nonneg (by positivity) hq
  exact add_nonneg (add_nonneg (add_nonneg (hn _ _ h1) (hn _ _ h2)) (hn _ _ h3)) (hn _ _ h4)

/-- Witness for C1: a concrete evaluation (1,000,000 input tokens at a
rate of 3e-6 per token cost exactly 3, per §8 of the spec). -/
theorem calculateCost_spec_witness :
    calculateCost ⟨1000000, 0, 0, 0⟩
        (some ⟨some (3 / 1000000), some (15 / 1000000), none, none⟩) = 3
      ∧ calculateCost ⟨1000000, 0, 0, 0⟩ none = 0 := by
  have h := calculateCost_spec ⟨1000000, 0, 0, 0⟩
    ⟨some (3 / 1000000), some (15 / 1000000), none, none⟩
    (by norm_num) (by norm_num) (by norm_num) (by norm_num)
  refine ⟨?_, h.2.1⟩
  rw [h.1]
  norm_num

/-- The source's substring loop is exactly a first-match `List.find?` over
the table in iteration order. -/
theorem substringScan_eq_find (lm : String) (table : PricingTable) :
    substringScan lm table
      = (table.find? fun kv =>
          jsIncludes (jsToLower kv.1) lm || jsIncludes lm (jsToLower kv.1)).map Prod.snd := by
  induction table with
  | nil => rfl
  | cons kv rest ih =>
      simp only [substringScan, List.find?_cons]
      by_cases h : (jsIncludes (jsToLower kv.1) lm || jsIncludes lm (jsToLower kv.1)) = true
      · simp [h]
      · simp only [Bool.not_eq_true] at h
        simp [h, ih]

/-- C2: for every non-empty model name and every table, `getModelPricing`
resolves exactly as the layered spec algorithm: exact key match first,
then the fixed variant-rewrite list in priority order, then the
case-insensitive bidirectional substring match taking the first hit in
table iteration order, and absent when no step matches. -/
theorem getModelPricing_resolution (m : String) (table : PricingTable) (h : m ≠ "") :
    getModelPricing (some m) (some table) = resolveSpec m table := by
  cases hx : table.lookup m with
  | some p => simp [getModelPricing, resolveSpec, resolveExact, if_neg h, hx]
  | none =>
      have h1 : tryVariations
          [m, "anthropic/" ++ m, "claude-3-5-" ++ m, "claude-3-" ++ m, "claude-" ++ m]
          table
          = tryVariations
              ["anthropic/" ++ m, "claude-3-5-" ++ m, "claude-3-" ++ m, "claude-" ++ m]
              table := by
        simp [tryVariations, hx]
      simp only [getModelPricing, resolveSpec, resolveExact, resolveVariants,
        if_neg h, hx, h1]
      cases hv : tryVariations
          ["anthropic/" ++ m, "claude-3-5-" ++ m, "claude-3-" ++ m, "claude-" ++ m]
          table with
      | some p => simp [hv]
      | none => simp [hv, resolveSubstring, substringScan_eq_find]

/-- Witness for C2: concrete resolution through the substring step (the
dated sonnet key is found for the short name "sonnet"). -/
theorem getModelPricing_resolution_witness :
    getModelPricing (some "sonnet")
        (some [("claude-sonnet-4-20250514", ⟨some 3, some 15, none, none⟩)])
      = resolveSpec "sonnet"
          [("claude-sonnet-4-20250514", ⟨some 3, some 15, none, none⟩)] :=
  getModelPricing_resolution "sonnet"
    [("claude-sonnet-4-20250514", ⟨some 3, some 15, none, none⟩)] (by decide)

/-- C10: `getModelPricing` returns absent for an absent or empty model
name and for an absent table — in particular the empty string is never
resolved through the substring step, even though the empty string is a
substring of every key. -/
theorem getModelPricing_degenerate :
    (∀ p, getModelPricing none p = none)
      ∧ (∀ p, getModelPricing (some "") p = none)
      ∧ (∀ m, getModelPricing m none = none)
      ∧ (∀ s : String, jsIncludes s "" = true) := by
  refine ⟨fun p => by cases p <;> rfl, fun p => ?_, fun m => by cases m <;> rfl, fun s => ?_⟩
  · cases p with
    | none => rfl
    | some table => simp [getModelPricing]
  · exact decide_eq_true List.nil_infix

/-! ## Calendar and filter theorems -/

/-- Moving the day argument of the normalized date constructor up by one
adds exactly one day. -/
theorem calMs_day_succ (y m d : Int) : calMs y m d + msPerDay = calMs y m (d + 1) := by
  simp only [calMs, msPerDay]
  ring

/-- With both window edges present, the retention test is the conjunction
of two inclusive comparisons. -/
theorem inTimeRange_some (a b t : Int) :
    inTimeRange ⟨some a, some b⟩ (some t) = decide (a ≤ t ∧ t ≤ b) := by
  simp [inTimeRange, Bool.decide_and]

/-- C5: the time filter "7d" evaluated at instant `T` retains exactly the
records whose timestamp `t` satisfies `T - 7 days ≤ t ≤ T`, both
boundaries inclusive; and under any time filter that parses to a range,
every retained record has a timestamp (records lacking one are excluded). -/
theorem filterByTime_7d (T : Int) (messages : List Msg) :
    filterByTime T messages "7d"
        = .ok (messages.filter fun msg =>
            match msg.timestamp with
            | some t => decide (T - 7 * msPerDay ≤ t ∧ t ≤ T)
            | none => false)
      ∧ ∀ (s : String) (tr : TimeRange) (msgs res : List Msg),
          parseTimeFilter T s = .ok (some tr) →
          filterByTime T msgs s = .ok res →
          ∀ m ∈ res, m.timestamp.isSome = true := by
  constructor
  · have hp : parseTimeFilter T "7d" = .ok (some ⟨some (T - 7 * msPerDay), some T⟩) := by
      rfl
    simp only [filterByTime, if_neg (show ¬("7d" : String) = "" by decide), hp]
    congr 1
    apply List.filter_congr
    intro msg _
    cases hts : msg.timestamp with
    | none => rfl
    | some t => exact inTimeRange_some _ _ t
  · intro s tr msgs res hparse hfilt m hm
    by_cases hs : s = ""
    · rw [hs] at hparse
      simp [parseTimeFilter] at hparse
    · simp only [filterByTime, if_neg hs, hparse] at hfilt
      injection hfilt with hres
      rw [← hres] at hm
      have h2 := List.of_mem_filter hm
      cases hts : m.timestamp with
      | none => rw [hts] at h2; simp [inTimeRange] at h2
      | some t => simp [hts]

/-- Witness for C5: at `T = 0`, records at exactly `T` and exactly
`T - 7 days` are retained (inclusive boundaries), one millisecond beyond
either edge or a missing timestamp is excluded. -/
theorem filterByTime_7d_witness :
    filterByTime 0
        [⟨some 0, none, none, 0, 0, 0, 0, none, 0⟩,
         ⟨some (-604800000), none, none, 0, 0, 0, 0, none, 0⟩,
         ⟨some (-604800001), none, none, 0, 0, 0, 0, none, 0⟩,
         ⟨some 1, none, none, 0, 0, 0, 0, none, 0⟩,
         ⟨none, none, none, 0, 0, 0, 0, none, 0⟩] "7d"
      = .ok [⟨some 0, none, none, 0, 0, 0, 0, none, 0⟩,
             ⟨some (-604800000), none, none, 0, 0, 0, 0, none, 0⟩]
      ∧ (⟨some 0, none, none, 0, 0, 0, 0, none, 0⟩ : Msg).timestamp.isSome = true := by
  have h := filterByTime_7d 0
    [⟨some 0, none, none, 0, 0, 0, 0, none, 0⟩,
     ⟨some (-604800000), none, none, 0, 0, 0, 0, none, 0⟩,
     ⟨some (-604800001), none, none, 0, 0, 0, 0, none, 0⟩,
     ⟨some 1, none, none, 0, 0, 0, 0, none, 0⟩,
     ⟨none, none, none, 0, 0, 0, 0, none, 0⟩]
  constructor
  · rw [h.1]
    rfl
  · refine h.2 "7d" ⟨some (0 - 7 * msPerDay), some 0⟩
      [⟨some 0, none, none, 0, 0, 0, 0, none, 0⟩,
       ⟨some (-604800000), none, none, 0, 0, 0, 0, none, 0⟩,
       ⟨some (-604800001), none, none, 0, 0, 0, 0, none, 0⟩,
       ⟨some 1, none, none, 0, 0, 0, 0, none, 0⟩,
       ⟨none, none, none, 0, 0, 0, 0, none, 0⟩]
      [⟨some 0, none, none, 0, 0, 0, 0, none, 0⟩,
       ⟨some (-604800000), none, none, 0, 0, 0, 0, none, 0⟩] (by rfl) ?_ _
      (List.mem_cons_self _ _)
    rw [h.1]
    rfl

/-- C6 fails on the code: with the month-range filter "7-8" evaluated in
2025, a record timestamped at NOON on 31 August 2025 — a time of day on
the last calendar day of the end month — is excluded, because the
window's end boundary is `new Date(year, 8, 0)`, i.e. midnight at the
start of 31 August, not the end of that day. -/
theorem monthRange_lastDay_counterexample :
    civilFromDays ((daysFromCivil 2025 8 31 * msPerDay + 12 * msPerHour).fdiv msPerDay)
        = (2025, 8, 31)
      ∧ daysInMonth 2025 8 = 31
      ∧ filterByTime (daysFromCivil 2025 6 15 * msPerDay)
          [⟨some (daysFromCivil 2025 8 31 * msPerDay + 12 * msPerHour),
            none, none, 0, 0, 0, 0, none, 0⟩] "7-8"
        = .ok [] :=
  ⟨by rfl, by rfl, by rfl⟩

/-- C6 as amended: for every bare numeric month range `M1-M2` (months
1–12), the window runs from 00:00:00 on the first day of the start month
to 00:00:00 (midnight) on the last day of the end month of the current
year, both boundaries inclusive — so a record later than midnight on that
last calendar day is excluded. The second conjunct identifies the end
boundary as exactly one day before the first day of the following month,
i.e. midnight of the end month's last day. -/
theorem monthRange_window (now : Int) (m1 m2 : Nat)
    (hm1 : 1 ≤ m1) (hm2 : m1 ≤ 12) (hm3 : 1 ≤ m2) (hm4 : m2 ≤ 12) :
    parseTimeFilter now (toString m1 ++ "-" ++ toString m2)
        = .ok (some ⟨some (jsDateMs (getFullYear now) ((m1 : Int) - 1) 1),
            some (jsDateMs (getFullYear now) (m2 : Int) 0)⟩)
      ∧ jsDateMs (getFullYear now) (m2 : Int) 0 + msPerDay
          = jsDateMs (getFullYear now) (m2 : Int) 1
      ∧ ∀ msgs : List Msg,
          filterByTime now msgs (toString m1 ++ "-" ++ toString m2)
            = .ok (msgs.filter fun msg =>
                match msg.timestamp with
                | some t => decide (jsDateMs (getFullYear now) ((m1 : Int) - 1) 1 ≤ t
                    ∧ t ≤ jsDateMs (getFullYear now) (m2 : Int) 0)
                | none => false) := by
  have hp : parseTimeFilter now (toString m1 ++ "-" ++ toString m2)
      = .ok (some ⟨some (jsDateMs (getFullYear now) ((m1 : Int) - 1) 1),
          some (jsDateMs (getFullYear now) (m2 : Int) 0)⟩) := by
    interval_cases m1 <;> interval_cases m2 <;> rfl
  have hne : toString m1 ++ "-" ++ toString m2 ≠ "" := by
    interval_cases m1 <;> interval_cases m2 <;> decide
  refine ⟨hp, calMs_day_succ _ _ 0, fun msgs => ?_⟩
  simp only [filterByTime, if_neg hne, hp]
  congr 1
  apply List.filter_congr
  intro msg _
  cases hts : msg.timestamp with
  | none => rfl
  | some t => exact inTimeRange_some _ _ t

/-- Witness for C6 (amended): filter "7-8" in 2025 — midnight on 31
August 2025 is retained, one millisecond later is excluded. -/
theorem monthRange_window_witness :
    parseTimeFilter (daysFromCivil 2025 6 15 * msPerDay) "7-8"
        = .ok (some ⟨some (jsDateMs 2025 6 1), some (jsDateMs 2025 8 0)⟩)
      ∧ filterByTime (daysFromCivil 2025 6 15 * msPerDay)
          [⟨some (daysFromCivil 2025 8 31 * msPerDay), none, none, 0, 0, 0, 0, none, 0⟩,
           ⟨some (daysFromCivil 2025 8 31 * msPerDay + 1), none, none, 0, 0, 0, 0, none, 0⟩]
          "7-8"
        = .ok [⟨some (daysFromCivil 2025 8 31 * msPerDay), none, none, 0, 0, 0, 0, none, 0⟩] := by
  have h := monthRange_window (daysFromCivil 2025 6 15 * msPerDay) 7 8
    (by norm_num) (by norm_num) (by norm_num) (by norm_num)
  have e : toString 7 ++ "-" ++ toString 8 = "7-8" := rfl
  rw [e] at h
  constructor
  · rw [h.1]
    rfl
  · rw [h.2.2]
    rfl

/-- C8: every non-empty time-filter string matching none of the supported
patterns makes `parseTimeFilter` throw, with a message that contains the
offending input literally and lists the valid example formats; it never
returns a (default or empty) range. -/
theorem parseTimeFilter_invalid (now : Int) (s : String)
    (hne : s ≠ "") (hnm : timePatternMatches s = false) :
    parseTimeFilter now s = .error (invalidTimeFilterMsg s)
      ∧ invalidTimeFilterMsg s
          = "Invalid time filter format: " ++ s
            ++ ". \nExamples: 5min, 2h, 7d, 1m, 1y, 2024-07-01 14:30:15,2024-07-01 16:45:30"
      ∧ ∀ r, parseTimeFilter now s ≠ .ok r := by
  have conv : ∀ {α : Type} (o : Option α), o.isSome = false → o = none := by
    intro α o h
    cases o with
    | none => rfl
    | some v => simp at h
  simp only [timePatternMatches, Bool.or_eq_false_iff] at hnm
  obtain ⟨⟨⟨⟨⟨⟨⟨⟨⟨⟨⟨h1, h2⟩, h3⟩, h4⟩, h5⟩, h6⟩, h7⟩, h8⟩, h9⟩, h10⟩, h11⟩, h12⟩ := hnm
  have hmain : parseTimeFilter now s = .error (invalidTimeFilterMsg s) := by
    simp only [parseTimeFilter, if_neg hne, conv _ h1, conv _ h2, conv _ h3, conv _ h4,
      conv _ h5, conv _ h6, conv _ h7, conv _ h8, conv _ h9, conv _ h10, conv _ h11,
      conv _ h12]
  exact ⟨hmain, rfl, fun r hr => by rw [hmain] at hr; exact Except.noConfusion hr⟩

/-- Witness for C8: the invalid filter string "banana". -/
theorem parseTimeFilter_invalid_witness :
    parseTimeFilter 0 "banana" = .error (invalidTimeFilterMsg "banana")
      ∧ invalidTimeFilterMsg "banana"
          = "Invalid time filter format: banana. \nExamples: 5min, 2h, 7d, 1m, 1y, 2024-07-01 14:30:15,2024-07-01 16:45:30"
      ∧ parseTimeFilter 0 "banana" ≠ .ok none := by
  have h := parseTimeFilter_invalid 0 "banana" (by decide) (by rfl)
  exact ⟨h.1, by rfl, h.2.2 none⟩

/-! ## Usage-parser theorems -/

/-- One line-step grows the record list by one exactly on a usage-bearing
line, and leaves it unchanged otherwise. -/
theorem lineStep_length (dir : String) (pd : Option PricingTable)
    (st : Option String × List Msg) (l : ScanLine) :
    (lineStep dir pd st l).2.length
      = st.2.length + (if lineHasUsage l then 1 else 0) := by
  cases l with
  | none => simp [lineStep, lineHasUsage]
  | some d =>
      cases hm : d.message with
      | none => simp [lineStep, lineHasUsage, hm]
      | some m =>
          cases hu : m.usage with
          | none => simp [lineStep, lineHasUsage, hm, hu]
          | some u => simp [lineStep, lineHasUsage, hm, hu]

/-- Folding the line loop counts exactly the usage-bearing lines. -/
theorem processFile_length (dir : String) (pd : Option PricingTable)
    (lines : List ScanLine) :
    ∀ st : Option String × List Msg,
      (processFile dir pd st lines).2.length = st.2.length + lines.countP lineHasUsage := by
  induction lines with
  | nil => intro st; simp [processFile]
  | cons l rest ih =>
      intro st
      have h1 : processFile dir pd st (l :: rest)
          = processFile dir pd (lineStep dir pd st l) rest := rfl
      rw [h1, ih, lineStep_length, List.countP_cons]
      omega

/-- C3: a record is emitted for a scanned line exactly when the line
parses and carries a `message.usage` object — per file (any starting
state) and per directory, the number of emitted records equals the
number of usage-bearing lines, so unparseable or usage-less lines
contribute no (not even a zero-valued) record. -/
theorem records_iff_usage (dir : String) (pricingData : Option PricingTable)
    (pn : Option String) (lines : List ScanLine) (files : List (List ScanLine)) :
    (processFile dir pricingData (pn, []) lines).2.length = lines.countP lineHasUsage
      ∧ (processDir pricingData dir files).length
          = (files.map (fun f => f.countP lineHasUsage)).sum := by
  constructor
  · rw [processFile_length]
    simp
  · show (files.foldl (processFile dir pricingData) (none, [])).2.length = _
    have key : ∀ (fs : List (List ScanLine)) (st : Option String × List Msg),
        (fs.foldl (processFile dir pricingData) st).2.length
          = st.2.length + (fs.map (fun f => f.countP lineHasUsage)).sum := by
      intro fs
      induction fs with
      | nil => intro st; simp
      | cons f rest ih =>
          intro st
          rw [List.foldl_cons, ih, processFile_length, List.map_cons, List.sum_cons]
          omega
    rw [key]
    simp

/-- C4 as stated fails on the code, in both respects. First directory:
the project name comes from the FIRST PARSED line (here a cwd-less line
that sets it to the directory name), not from the first usage-bearing
line (whose cwd ends in "b"). Second directory: the name is resolved
once per directory, not once per file — the second file's record still
carries the name from the first file's line ("alpha"), not its own
("beta"). -/
theorem projectName_counterexample :
    (processDir none "mydir"
        [[some ⟨none, none, none⟩,
          some ⟨some "/a/b", none,
            some ⟨some ⟨some 1, none, none, none, none, none⟩, none, none⟩⟩]]).map
          (fun m => m.project)
        = [some "mydir"]
      ∧ lineHasUsage (some ⟨none, none, none⟩) = false
      ∧ lineHasUsage (some ⟨some "/a/b", none,
          some ⟨some ⟨some 1, none, none, none, none, none⟩, none, none⟩⟩) = true
      ∧ lastSegment "/a/b" = "b"
      ∧ ("mydir" : String) ≠ "b"
      ∧ (processDir none "projdir"
          [[some ⟨some "/x/alpha", none,
              some ⟨some ⟨some 1, none, none, none, none, none⟩, none, none⟩⟩],
           [some ⟨some "/y/beta", none,
              some ⟨some ⟨some 2, none, none, none, none, none⟩, none, none⟩⟩]]).map
            (fun m => m.project)
          = [some "alpha", some "alpha"] :=
  ⟨rfl, rfl, rfl, rfl, by decide, rfl⟩

/-- On a parsed line, the first state component becomes the resolved
project name. -/
theorem lineStep_fst (dir : String) (pd : Option PricingTable)
    (st : Option String × List Msg) (d : LineData) :
    (lineStep dir pd st (some d)).1 = resolveProjectName dir st.1 d := by
  cases hm : d.message with
  | none => simp [lineStep, hm]
  | some mo =>
      cases hu : mo.usage with
      | none => simp [lineStep, hm, hu]
      | some u => simp [lineStep, hm, hu]

/-- A line-step appends zero or one record, and any appended record
carries the step's resolved project name. -/
theorem lineStep_snd (dir : String) (pd : Option PricingTable)
    (st : Option String × List Msg) (l : ScanLine) :
    ∃ tail, (lineStep dir pd st l).2 = st.2 ++ tail
      ∧ ∀ m ∈ tail, m.project = (lineStep dir pd st l).1 := by
  cases l with
  | none => exact ⟨[], by simp [lineStep], by simp⟩
  | some d =>
      cases hm : d.message with
      | none => exact ⟨[], by simp [lineStep, hm], by simp⟩
      | some mo =>
          cases hu : mo.usage with
          | none => exact ⟨[], by simp [lineStep, hm, hu], by simp⟩
          | some u =>
              refine ⟨[mkMsg pd (resolveProjectName dir st.1 d) d mo u], ?_, ?_⟩
              · simp [lineStep, hm, hu]
              · intro m hmem
                rw [List.mem_singleton.mp hmem]
                simp only [lineStep, hm, hu]
                rfl

/-- While the running project name is truthy, a line-step preserves it. -/
theorem lineStep_preserves_truthy (dir : String) (pd : Option PricingTable)
    (st : Option String × List Msg) (l : ScanLine) (h : strTruthy st.1 = true) :
    (lineStep dir pd st l).1 = st.1 := by
  cases l with
  | none => rfl
  | some d =>
      rw [lineStep_fst]
      simp [resolveProjectName, h]

/-- While the running project name is truthy, every record the remaining
lines emit carries it (and the name never changes). -/
theorem foldl_lineStep_truthy (dir : String) (pd : Option PricingTable)
    (lines : List ScanLine) :
    ∀ (pn : Option String) (acc : List Msg), strTruthy pn = true →
      (lines.foldl (lineStep dir pd) (pn, acc)).1 = pn
        ∧ ∀ m ∈ (lines.foldl (lineStep dir pd) (pn, acc)).2,
            m ∈ acc ∨ m.project = pn := by
  induction lines with
  | nil => exact fun pn acc _ => ⟨rfl, fun m hm => Or.inl hm⟩
  | cons l rest ih =>
      intro pn acc h
      obtain ⟨tail, htail, hproj⟩ := lineStep_snd dir pd (pn, acc) l
      have hfst : (lineStep dir pd (pn, acc) l).1 = pn :=
        lineStep_preserves_truthy dir pd (pn, acc) l h
      rcases hst : lineStep dir pd (pn, acc) l with ⟨p1, msgs1⟩
      rw [hst] at htail hproj hfst
      simp only at htail hproj hfst
      subst hfst
      have hrec := ih _ msgs1 h
      rw [List.foldl_cons, hst]
      refine ⟨hrec.1, fun m hm => ?_⟩
      rcases hrec.2 m hm with h1 | h2
      · rw [htail] at h1
        rcases List.mem_append.mp h1 with h3 | h3
        · exact Or.inl h3
        · exact Or.inr (hproj m h3)
      · exact Or.inr h2

/-- C4 amended (helper, over the flattened per-directory line stream): if
the first successfully parsed line of the stream is `d` and the name it
resolves to is non-empty, every emitted record carries that name. -/
theorem foldl_lineStep_project (dir : String) (pd : Option PricingTable)
    (L : List ScanLine) :
    ∀ d : LineData, (L.filterMap id).head? = some d →
      strTruthy (resolveProjectName dir none d) = true →
      ∀ m ∈ (L.foldl (lineStep dir pd) (none, [])).2,
        m.project = resolveProjectName dir none d := by
  induction L with
  | nil => intro d hfirst; simp at hfirst
  | cons l rest ih =>
      intro d hfirst hname
      cases l with
      | none =>
          have hf : (rest.filterMap id).head? = some d := by
            simpa [List.filterMap_cons] using hfirst
          intro m hm
          exact ih d hf hname m hm
      | some d0 =>
          have hd : d0 = d := by
            simpa [List.filterMap_cons] using hfirst
          subst hd
          intro m hm
          rw [List.foldl_cons] at hm
          obtain ⟨tail, htail, hproj⟩ := lineStep_snd dir pd (none, []) (some d0)
          have hfst : (lineStep dir pd ((none : Option String), ([] : List Msg))
              (some d0)).1 = resolveProjectName dir none d0 :=
            lineStep_fst dir pd (none, []) d0
          rcases hst : lineStep dir pd ((none : Option String), ([] : List Msg))
              (some d0) with ⟨p1, msgs1⟩
          rw [hst] at htail hproj hfst hm
          simp only at htail hproj hfst
          subst hfst
          have htr := foldl_lineStep_truthy dir pd rest
            (resolveProjectName dir none d0) msgs1 hname
          rcases htr.2 m hm with h1 | h2
          · rw [htail] at h1
            exact hproj m (by simpa using h1)
          · exact h2

/-- C4 amended: the project identifier is resolved once per project
DIRECTORY (not per file), from the first successfully parsed line across
the directory's files in scan order — that line's working-directory last
path segment when the line has a non-empty `cwd`, otherwise the
directory's own name — and, provided the resolved name is non-empty,
every record emitted from the directory carries it. -/
theorem projectName_resolution (pricingData : Option PricingTable) (dir : String)
    (files : List (List ScanLine)) (d : LineData)
    (hfirst : (files.flatten.filterMap id).head? = some d)
    (hname : strTruthy (resolveProjectName dir none d) = true) :
    ∀ m ∈ processDir pricingData dir files,
      m.project = resolveProjectName dir none d := by
  have hflat : processDir pricingData dir files
      = (files.flatten.foldl (lineStep dir pricingData) (none, [])).2 := by
    show (files.foldl (processFile dir pricingData) (none, [])).2 = _
    rw [List.foldl_flatten]
    rfl
  rw [hflat]
  exact foldl_lineStep_project dir pricingData files.flatten d hfirst hname

/-- Witness for C4 (amended): a two-file directory; the second file's
record carries the name resolved from the first file's first parsed line. -/
theorem projectName_resolution_witness :
    (mkMsg none (some "alpha")
        ⟨some "/y/beta", none,
          some ⟨some ⟨some 2, none, none, none, none, none⟩, none, none⟩⟩
        ⟨some ⟨some 2, none, none, none, none, none⟩, none, none⟩
        ⟨some 2, none, none, none, none, none⟩).project = some "alpha" := by
  have h := projectName_resolution none "projdir"
    [[some ⟨some "/x/alpha", none,
        some ⟨some ⟨some 1, none, none, none, none, none⟩, none, none⟩⟩],
     [some ⟨some "/y/beta", none,
        some ⟨some ⟨some 2, none, none, none, none, none⟩, none, none⟩⟩]]
    ⟨some "/x/alpha", none,
      some ⟨some ⟨some 1, none, none, none, none, none⟩, none, none⟩⟩
    (by rfl) (by decide)
  exact (h _ (by decide)).trans (by rfl)

/-! ## Aggregator theorems -/

/-- Summing the constant 1 over a list counts its elements. -/
theorem sum_map_one (msgs : List Msg) :
    (msgs.map fun _ => (1 : Nat)).sum = msgs.length := by
  induction msgs with
  | nil => rfl
  | cons m rest ih => simp [ih, Nat.add_comm]

/-- A key appended at the end of the map is found. -/
theorem lookup_append_self (acc : List (String × Agg)) (key : String) (v : Agg) :
    ((acc ++ [(key, v)]).lookup key).isSome = true := by
  induction acc with
  | nil => simp [List.lookup]
  | cons kv rest ih =>
      obtain ⟨k, w⟩ := kv
      by_cases hk : key == k
      · simp [List.lookup, hk]
      · simp [List.lookup, hk, ih]

/-- Updating the (present) entry of a key changes the projected sum by
exactly the update's increment. -/
theorem sum_updateEntry (π : Agg → Nat) (key : String) (f : Agg → Agg) (c : Nat)
    (hf : ∀ a, π (f a) = π a + c) :
    ∀ acc : List (String × Agg), (acc.lookup key).isSome = true →
      ((updateEntry key f acc).map fun kv => π kv.2).sum
        = ((acc.map fun kv => π kv.2).sum) + c := by
  intro acc
  induction acc with
  | nil => intro h; simp [List.lookup] at h
  | cons kv rest ih =>
      obtain ⟨k, v⟩ := kv
      intro h
      by_cases hk : k = key
      · have hstep : updateEntry key f ((k, v) :: rest) = (k, f v) :: rest := by
          simp [updateEntry, hk]
        rw [hstep]
        simp only [List.map_cons, List.sum_cons, hf]
        omega
      · have hne : (key == k) = false := by
          simpa using fun e => hk e.symm
        have h' : (rest.lookup key).isSome = true := by
          simpa [List.lookup, hne] using h
        simp only [updateEntry, if_neg hk, List.map_cons, List.sum_cons, ih h']
        omega

/-- One aggregation step changes the projected sum by exactly the
message's contribution (for any projection that the group initializer
zeroes and the accumulator bumps). -/
theorem sum_aggStep (π : Agg → Nat) (g : Msg → Nat)
    (hacc : ∀ msg a, π (accumulate msg a) = π a + g msg)
    (hinit : ∀ msg, π (initAgg msg) = 0)
    (acc : List (String × Agg)) (msg : Msg) :
    ((aggStep acc msg).map fun kv => π kv.2).sum
      = ((acc.map fun kv => π kv.2).sum) + g msg := by
  by_cases hl : (acc.lookup (aggKey msg)).isSome = true
  · have hstep : aggStep acc msg = updateEntry (aggKey msg) (accumulate msg) acc := by
      simp [aggStep, hl]
    rw [hstep, sum_updateEntry π (aggKey msg) (accumulate msg) (g msg)
      (fun a => hacc msg a) acc hl]
  · have hl' : (acc.lookup (aggKey msg)).isSome = false := by
      rwa [Bool.not_eq_true] at hl
    have hstep : aggStep acc msg
        = updateEntry (aggKey msg) (accumulate msg)
            (acc ++ [(aggKey msg, initAgg msg)]) := by
      simp [aggStep, hl']
    rw [hstep, sum_updateEntry π (aggKey msg) (accumulate msg) (g msg)
      (fun a => hacc msg a) _ (lookup_append_self acc _ _)]
    simp [hinit]

/-- Folding the whole message list accumulates the projected sum. -/
theorem foldl_aggStep_sum (π : Agg → Nat) (g : Msg → Nat)
    (hacc : ∀ msg a, π (accumulate msg a) = π a + g msg)
    (hinit : ∀ msg, π (initAgg msg) = 0) (msgs : List Msg) :
    ∀ acc : List (String × Agg),
      ((msgs.foldl aggStep acc).map fun kv => π kv.2).sum
        = ((acc.map fun kv => π kv.2).sum) + (msgs.map g).sum := by
  induction msgs with
  | nil => intro acc; simp
  | cons m rest ih =>
      intro acc
      rw [List.foldl_cons, ih, sum_aggStep π g hacc hinit, List.map_cons, List.sum_cons]
      omega

/-- The accumulation body bumps each token field by the message's count
and the message count by one (the model-set and timestamp updates do not
touch them). -/
theorem accumulate_fields (msg : Msg) (a : Agg) :
    (accumulate msg a).inputTokens = a.inputTokens + msg.inputTokens
      ∧ (accumulate msg a).outputTokens = a.outputTokens + msg.outputTokens
      ∧ (accumulate msg a).cacheWriteTokens = a.cacheWriteTokens + msg.cacheWriteTokens
      ∧ (accumulate msg a).cacheReadTokens = a.cacheReadTokens + msg.cacheReadTokens
      ∧ (accumulate msg a).messageCount = a.messageCount + 1 := by
  cases hm : msg.model <;> cases ht : msg.timestamp <;>
    simp only [accumulate, hm, ht] <;>
    refine ⟨?_, ?_, ?_, ?_, ?_⟩ <;>
    first
    | rfl
    | trivial
    | (split_ifs <;> rfl)

/-- C7: aggregating by (project, calendar day) preserves the totals
exactly — each of the four token sums over the aggregated rows equals
the same sum over the input records, and the rows' message counts sum to
the number of input records. -/
theorem aggregate_preserves_sums (msgs : List Msg) :
    ((aggregateMessagesByProjectAndDate msgs).map fun r => r.inputTokens).sum
        = (msgs.map fun m => m.inputTokens).sum
      ∧ ((aggregateMessagesByProjectAndDate msgs).map fun r => r.outputTokens).sum
          = (msgs.map fun m => m.outputTokens).sum
      ∧ ((aggregateMessagesByProjectAndDate msgs).map fun r => r.cacheWriteTokens).sum
          = (msgs.map fun m => m.cacheWriteTokens).sum
      ∧ ((aggregateMessagesByProjectAndDate msgs).map fun r => r.cacheReadTokens).sum
          = (msgs.map fun m => m.cacheReadTokens).sum
      ∧ ((aggregateMessagesByProjectAndDate msgs).map fun r => r.messageCount).sum
          = msgs.length := by
  have key : ∀ (π : Agg → Nat) (π' : AggRow → Nat) (g : Msg → Nat),
      (∀ e, π' (finalizeAgg e) = π e) →
      (∀ msg a, π (accumulate msg a) = π a + g msg) →
      (∀ msg, π (initAgg msg) = 0) →
      ((aggregateMessagesByProjectAndDate msgs).map π').sum = (msgs.map g).sum := by
    intro π π' g hfin hacc hinit
    show (((msgs.foldl aggStep []).map fun kv => finalizeAgg kv.2).map π').sum = _
    rw [List.map_map]
    have hcomp : (π' ∘ fun kv : String × Agg => finalizeAgg kv.2)
        = fun kv : String × Agg => π kv.2 := by
      funext kv
      exact hfin kv.2
    rw [hcomp, foldl_aggStep_sum π g hacc hinit msgs []]
    simp
  exact ⟨key (fun e => e.inputTokens) (fun r => r.inputTokens) (fun m => m.inputTokens)
      (fun e => rfl) (fun msg a => (accumulate_fields msg a).1) (fun msg => rfl),
    key (fun e => e.outputTokens) (fun r => r.outputTokens) (fun m => m.outputTokens)
      (fun e => rfl) (fun msg a => (accumulate_fields msg a).2.1) (fun msg => rfl),
    key (fun e => e.cacheWriteTokens) (fun r => r.cacheWriteTokens)
      (fun m => m.cacheWriteTokens)
      (fun e => rfl) (fun msg a => (accumulate_fields msg a).2.2.1) (fun msg => rfl),
    key (fun e => e.cacheReadTokens) (fun r => r.cacheReadTokens)
      (fun m => m.cacheReadTokens)
      (fun e => rfl) (fun msg a => (accumulate_fields msg a).2.2.2.1) (fun msg => rfl),
    (key (fun e => e.messageCount) (fun r => r.messageCount) (fun _ => 1)
      (fun e => rfl) (fun msg a => (accumulate_fields msg a).2.2.2.2)
      (fun msg => rfl)).trans (sum_map_one msgs)⟩

/-! ## Sorter theorems -/

theorem getSortValue_cost (m : Msg) : getSortValue m "cost" = .num m.cost := rfl

theorem getSortValue_time (m : Msg) :
    getSortValue m "time" = .num ((tsValue m.timestamp : Int) : Rat) := rfl

theorem getSortValue_tokens (m : Msg) :
    getSortValue m "tokens"
      = .num ((m.inputTokens + m.outputTokens
          + m.cacheWriteTokens + m.cacheReadTokens : Nat) : Rat) := rfl

theorem getSortValue_project (m : Msg) :
    getSortValue m "project" = .str (jsToLower (m.project.getD "")) := rfl

/-- Ascending numeric comparison is non-positive exactly for `≤`. -/
theorem compare_num_asc (x y : Rat) :
    compareValues (.num x) (.num y) "asc" ≤ 0 ↔ x ≤ y :=
  sub_nonpos

/-- Descending numeric comparison is non-positive exactly for `≥`. -/
theorem compare_num_desc (x y : Rat) :
    compareValues (.num x) (.num y) "desc" ≤ 0 ↔ y ≤ x :=
  sub_nonpos

/-- Ascending string comparison is non-positive exactly for `≤`. -/
theorem compare_str_asc (x y : String) :
    compareValues (.str x) (.str y) "asc" ≤ 0 ↔ x ≤ y := by
  show strCompare x y ≤ 0 ↔ x ≤ y
  unfold strCompare
  rcases lt_trichotomy x y with h | h | h
  · rw [if_pos h]
    constructor
    · intro _; exact h.le
    · intro _; norm_num
  · subst h
    rw [if_neg (lt_irrefl x), if_pos rfl]
    constructor
    · intro _; exact le_refl x
    · intro _; norm_num
  · rw [if_neg (not_lt.mpr h.le), if_neg (ne_of_gt h)]
    constructor
    · intro hc; norm_num at hc
    · intro hc; exact absurd hc (not_le.mpr h)

/-- Descending string comparison is non-positive exactly for `≥`. -/
theorem compare_str_desc (x y : String) :
    compareValues (.str x) (.str y) "desc" ≤ 0 ↔ y ≤ x := by
  show -(strCompare x y) ≤ 0 ↔ y ≤ x
  rw [neg_nonpos]
  unfold strCompare
  rcases lt_trichotomy x y with h | h | h
  · rw [if_pos h]
    constructor
    · intro hc; norm_num at hc
    · intro hc; exact absurd hc (not_le.mpr h)
  · subst h
    rw [if_neg (lt_irrefl x), if_pos rfl]
    constructor
    · intro _; exact le_refl x
    · intro _; norm_num
  · rw [if_neg (not_lt.mpr h.le), if_neg (ne_of_gt h)]
    constructor
    · intro _; exact h.le
    · intro _; norm_num

/-- When the comparator mirrors a linear order through a key, the merge
sort's output is pairwise ordered by the comparator. -/
theorem pairwise_mergeSort_of_iff (f o : String) (κ : Type) [inst : LinearOrder κ]
    (key : Msg → κ)
    (hle : ∀ a b : Msg,
      compareValues (getSortValue a f) (getSortValue b f) o ≤ 0 ↔ key a ≤ key b)
    (msgs : List Msg) :
    List.Pairwise
      (fun a b => compareValues (getSortValue a f) (getSortValue b f) o ≤ 0)
      (msgs.mergeSort fun a b =>
        decide (compareValues (getSortValue a f) (getSortValue b f) o ≤ 0)) := by
  have htrans : ∀ a b c : Msg,
      decide (compareValues (getSortValue a f) (getSortValue b f) o ≤ 0) = true →
      decide (compareValues (getSortValue b f) (getSortValue c f) o ≤ 0) = true →
      decide (compareValues (getSortValue a f) (getSortValue c f) o ≤ 0) = true := by
    intro a b c hab hbc
    rw [decide_eq_true_eq, hle] at hab hbc ⊢
    exact le_trans hab hbc
  have htotal : ∀ a b : Msg,
      (decide (compareValues (getSortValue a f) (getSortValue b f) o ≤ 0)
        || decide (compareValues (getSortValue b f) (getSortValue a f) o ≤ 0)) = true := by
    intro a b
    rw [Bool.or_eq_true, decide_eq_true_eq, decide_eq_true_eq, hle, hle]
    exact le_total _ _
  have hs := @List.sorted_mergeSort Msg
    (fun a b => decide (compareValues (getSortValue a f) (getSortValue b f) o ≤ 0))
    htrans htotal msgs
  exact hs.imp fun h => of_decide_eq_true h

/-- C9: for every valid sort field and order, `sortMessages` succeeds and
returns a permutation of the input, ordered by the chosen field and
direction (every pair in output order compares `≤ 0` under the source's
comparator). The source sorts a copy (`[...messages]`), never mutating
its input, which the embedding's purity reflects. -/
theorem sortMessages_spec (msgs : List Msg) (f o : String)
    (hf : f ∈ VALID_FIELDS) (ho : o ∈ VALID_ORDERS) :
    ∃ res, sortMessages msgs f o = .ok res
      ∧ res.Perm msgs
      ∧ List.Pairwise
          (fun a b => compareValues (getSortValue a f) (getSortValue b f) o ≤ 0)
          res := by
  refine ⟨msgs.mergeSort fun a b =>
      decide (compareValues (getSortValue a f) (getSortValue b f) o ≤ 0), ?_, ?_, ?_⟩
  · simp only [sortMessages, if_neg (not_not_intro hf), if_neg (not_not_intro ho)]
  · exact List.mergeSort_perm _ _
  · have hf' : f = "cost" ∨ f = "time" ∨ f = "tokens" ∨ f = "project" := by
      simpa [VALID_FIELDS] using hf
    have ho' : o = "asc" ∨ o = "desc" := by
      simpa [VALID_ORDERS] using ho
    rcases ho' with rfl | rfl
    · rcases hf' with rfl | rfl | rfl | rfl
      · exact pairwise_mergeSort_of_iff "cost" "asc" Rat (fun m => m.cost)
          (fun a b => by
            rw [getSortValue_cost, getSortValue_cost]
            exact compare_num_asc _ _) msgs
      · exact pairwise_mergeSort_of_iff "time" "asc" Rat
          (fun m => ((tsValue m.timestamp : Int) : Rat))
          (fun a b => by
            rw [getSortValue_time, getSortValue_time]
            exact compare_num_asc _ _) msgs
      · exact pairwise_mergeSort_of_iff "tokens" "asc" Rat
          (fun m => ((m.inputTokens + m.outputTokens
            + m.cacheWriteTokens + m.cacheReadTokens : Nat) : Rat))
          (fun a b => by
            rw [getSortValue_tokens, getSortValue_tokens]
            exact compare_num_asc _ _) msgs
      · exact pairwise_mergeSort_of_iff "project" "asc" String
          (fun m => jsToLower (m.project.getD ""))
          (fun a b => by
            rw [getSortValue_project, getSortValue_project]
            exact compare_str_asc _ _) msgs
    · rcases hf' with rfl | rfl | rfl | rfl
      · exact pairwise_mergeSort_of_iff "cost" "desc" Ratᵒᵈ
          (fun m => OrderDual.toDual m.cost)
          (fun a b => by
            rw [getSortValue_cost, getSortValue_cost, OrderDual.toDual_le_toDual]
            exact compare_num_desc _ _) msgs
      · exact pairwise_mergeSort_of_iff "time" "desc" Ratᵒᵈ
          (fun m => OrderDual.toDual ((tsValue m.timestamp : Int) : Rat))
          (fun a b => by
            rw [getSortValue_time, getSortValue_time, OrderDual.toDual_le_toDual]
            exact compare_num_desc _ _) msgs
      · exact pairwise_mergeSort_of_iff "tokens" "desc" Ratᵒᵈ
          (fun m => OrderDual.toDual ((m.inputTokens + m.outputTokens
            + m.cacheWriteTokens + m.cacheReadTokens : Nat) : Rat))
          (fun a b => by
            rw [getSortValue_tokens, getSortValue_tokens, OrderDual.toDual_le_toDual]
            exact compare_num_desc _ _) msgs
      · exact pairwise_mergeSort_of_iff "project" "desc" Stringᵒᵈ
          (fun m => OrderDual.toDual (jsToLower (m.project.getD "")))
          (fun a b => by
            rw [getSortValue_project, getSortValue_project, OrderDual.toDual_le_toDual]
            exact compare_str_desc _ _) msgs

/-- Witness for C9: sorting two concrete records by cost ascending. -/
theorem sortMessages_spec_witness :
    ∃ res,
      sortMessages
          [⟨some 5, none, none, 1, 0, 0, 0, none, 2⟩,
           ⟨some 3, none, none, 2, 0, 0, 0, none, 1⟩] "cost" "asc"
        = .ok res
      ∧ res.Perm
          [⟨some 5, none, none, 1, 0, 0, 0, none, 2⟩,
           ⟨some 3, none, none, 2, 0, 0, 0, none, 1⟩]
      ∧ List.Pairwise
          (fun a b =>
            compareValues (getSortValue a "cost") (getSortValue b "cost") "asc" ≤ 0)
          res :=
  sortMessages_spec
    [⟨some 5, none, none, 1, 0, 0, 0, none, 2⟩,
     ⟨some 3, none, none, 2, 0, 0, 0, none, 1⟩] "cost" "asc"
    (by decide) (by decide)

end ClaudeCodeUsage
